import Mathlib

/-!
Verification development for a small Redis-like in-memory store
(`redis_store.py`) and its line-oriented TCP dispatch loop
(`redis_server.py`).

The store is embedded shallowly: Python's `dict` objects become
association lists over `String` keys, `deque` becomes `List String`,
wall-clock instants (Python floats from `time.time()`) are idealized as
rationals, and every command method of `PyRedisStore` becomes a pure
function `… → Store → RValue × Store` threading the state explicitly.
Python's heterogeneous return values (strings, ints, None, lists) are
collected in `RValue`.
-/

namespace PyRedis

/-- Python `int(token)` on a whitespace-free token, modelled for optionally
signed ASCII digit strings: an optional `-`/`+` sign followed by a nonempty
run of decimal digits; anything else fails (`none`). -/
def digitsToNatAux : List Char → Nat → Option Nat
  | [], acc => some acc
  | c :: cs, acc =>
    if c.isDigit then digitsToNatAux cs (acc * 10 + (c.toNat - 48)) else none

/-- All-digit nonempty character list to its decimal value. -/
def digitsToNat? : List Char → Option Nat
  | [] => none
  | c :: cs => digitsToNatAux (c :: cs) 0

/-- Python `int()` on a command token (see `digitsToNatAux`). -/
def pyInt? (t : String) : Option Int :=
  match t.data with
  | '-' :: cs => (digitsToNat? cs).map (fun n => -(n : Int))
  | '+' :: cs => (digitsToNat? cs).map (fun n => (n : Int))
  | cs => (digitsToNat? cs).map (fun n => (n : Int))

/-- A stored value: Python `str`, `collections.deque` (front = list head),
or `dict` (association list, keys unique). -/
inductive Value where
  | str (s : String)
  | list (l : List String)
  | hash (h : List (String × String))
deriving DecidableEq, Repr

/-- The three value shapes, used for `isinstance` checks. -/
inductive Shape where
  | str
  | list
  | hash
deriving DecidableEq, Repr

/-- The shape tag of a stored value. -/
def Value.shape : Value → Shape
  | .str _ => .str
  | .list _ => .list
  | .hash _ => .hash

/-- Lookup in an association list (Python `d.get(k)` / `k in d`). -/
def alookup {α : Type} (l : List (String × α)) (k : String) : Option α :=
  match l with
  | [] => none
  | (k2, v) :: t => if k2 = k then some v else alookup t k

/-- Update in an association list (Python `d[k] = v`): replace in place if
the key is present, else append. -/
def aset {α : Type} (l : List (String × α)) (k : String) (v : α) :
    List (String × α) :=
  match l with
  | [] => [(k, v)]
  | (k2, w) :: t => if k2 = k then (k2, v) :: t else (k2, w) :: aset t k v

/-- Deletion from an association list (Python `del d[k]`, a no-op when the
key is absent, matching the guarded `if k in d: del d[k]` uses). -/
def aerase {α : Type} (l : List (String × α)) (k : String) :
    List (String × α) :=
  l.filter (fun p => p.1 ≠ k)

/-- The `PyRedisStore` state: `_data` and `_expirations` (absolute
deadlines, idealized rationals). -/
structure Store where
  data : List (String × Value)
  expirations : List (String × ℚ)
deriving DecidableEq, Repr

/-- A command result as Python produces it: a string, an int, `None`, or a
list of strings. -/
inductive RValue where
  | str (s : String)
  | int (n : Int)
  | nil
  | strlist (l : List String)
deriving DecidableEq, Repr

/-- The canonical WRONGTYPE message (`redis_store.py`). -/
def wrongtypeMsg : String :=
  "WRONGTYPE Operation against a key holding the wrong kind of value"

/-- `PyRedisStore._delete_key_internal`: remove the key from both maps,
report whether it was present in `_data`. -/
def delete_key_internal (key : String) (s : Store) : Bool × Store :=
  ((alookup s.data key).isSome,
   ⟨aerase s.data key, aerase s.expirations key⟩)

/-- `PyRedisStore._check_expiry` at instant `now`: if the key has a
deadline strictly in the past, delete it from both maps and report `true`. -/
def check_expiry (now : ℚ) (key : String) (s : Store) : Bool × Store :=
  match alookup s.expirations key with
  | some d => if d < now then (true, (delete_key_internal key s).2) else (false, s)
  | none => (false, s)

/-- `PyRedisStore._get_value_or_error`: expiry check, then fetch, then the
optional `isinstance` check. Returns (value, error, store). -/
def get_value_or_error (now : ℚ) (key : String) (expected : Option Shape)
    (s : Store) : Option Value × Option String × Store :=
  let c := check_expiry now key s
  if c.1 then (none, none, c.2)
  else
    match alookup c.2.data key with
    | none => (none, none, c.2)
    | some v =>
      match expected with
      | some sh =>
        if v.shape = sh then (some v, none, c.2) else (none, some wrongtypeMsg, c.2)
      | none => (some v, none, c.2)

/-- `PyRedisStore.command_set`: store `Str value`; with an `EX` argument,
parse it as milliseconds — non-positive or unparsable deletes the key and
fails — else set deadline `now + ms/1000`; without `EX`, clear any
deadline. -/
def command_set (now : ℚ) (key value : String) (expire_ms : Option String)
    (s : Store) : RValue × Store :=
  let s1 : Store := ⟨aset s.data key (.str value), s.expirations⟩
  match expire_ms with
  | some ms =>
    match pyInt? ms with
    | some m =>
      if (m : ℚ) / 1000 ≤ 0 then
        (.str "ERROR: Invalid expiration time format.", (delete_key_internal key s1).2)
      else
        (.str "OK", ⟨s1.data, aset s1.expirations key (now + (m : ℚ) / 1000)⟩)
    | none =>
      (.str "ERROR: Invalid expiration time format.", (delete_key_internal key s1).2)
  | none => (.str "OK", ⟨s1.data, aerase s1.expirations key⟩)

/-- `PyRedisStore.command_get`. -/
def command_get (now : ℚ) (key : String) (s : Store) : RValue × Store :=
  let r := get_value_or_error now key (some .str) s
  match r.2.1 with
  | some e => (.str ("ERROR: " ++ e), r.2.2)
  | none =>
    match r.1 with
    | some (.str v) => (.str v, r.2.2)
    | _ => (.nil, r.2.2)

/-- The per-key loop of `command_del`: lazily expire, then delete, counting
only deletions that found the key still present. -/
def delLoop (now : ℚ) (keys : List String) (c : Nat) (s : Store) : Nat × Store :=
  match keys with
  | [] => (c, s)
  | k :: ks =>
    let s1 := (check_expiry now k s).2
    let r := delete_key_internal k s1
    delLoop now ks (if r.1 then c + 1 else c) r.2

/-- `PyRedisStore.command_del`. -/
def command_del (now : ℚ) (keys : List String) (s : Store) : RValue × Store :=
  let r := delLoop now keys 0 s
  (.int r.1, r.2)

/-- `PyRedisStore.command_lpush`: `deque(values)` on a missing or expired
key; on a live list, `appendleft` of each of `reversed(values)` — the net
effect is `values ++ old`. -/
def command_lpush (now : ℚ) (key : String) (values : List String) (s : Store) :
    RValue × Store :=
  if values = [] then
    (.str "ERROR: wrong number of arguments for 'lpush' command", s)
  else
    let c := check_expiry now key s
    if c.1 then
      (.int values.length, ⟨aset c.2.data key (.list values), aerase c.2.expirations key⟩)
    else
      match alookup c.2.data key with
      | none =>
        (.int values.length, ⟨aset c.2.data key (.list values), aerase c.2.expirations key⟩)
      | some (.list l) =>
        (.int (values ++ l).length,
         ⟨aset c.2.data key (.list (values ++ l)), c.2.expirations⟩)
      | some _ => (.str ("ERROR: " ++ wrongtypeMsg), c.2)

/-- `PyRedisStore.command_rpush`: like LPUSH but `append` of each value in
order — the net effect on a live list is `old ++ values`. -/
def command_rpush (now : ℚ) (key : String) (values : List String) (s : Store) :
    RValue × Store :=
  if values = [] then
    (.str "ERROR: wrong number of arguments for 'rpush' command", s)
  else
    let c := check_expiry now key s
    if c.1 then
      (.int values.length, ⟨aset c.2.data key (.list values), aerase c.2.expirations key⟩)
    else
      match alookup c.2.data key with
      | none =>
        (.int values.length, ⟨aset c.2.data key (.list values), aerase c.2.expirations key⟩)
      | some (.list l) =>
        (.int (l ++ values).length,
         ⟨aset c.2.data key (.list (l ++ values)), c.2.expirations⟩)
      | some _ => (.str ("ERROR: " ++ wrongtypeMsg), c.2)

/-- A Python slice bound for a list of length `n`: a negative index counts
from the end and is clamped below at 0; a non-negative one is clamped above
at `n`. -/
def sliceIdx (n : Nat) (i : Int) : Nat :=
  if i < 0 then ((n : Int) + i).toNat else min i.toNat n

/-- Python `list[a:b]` (step 1). -/
def pySlice (l : List String) (a b : Int) : List String :=
  (l.drop (sliceIdx l.length a)).take (sliceIdx l.length b - sliceIdx l.length a)

/-- Python `list[a:]`. -/
def pySliceFrom (l : List String) (a : Int) : List String :=
  l.drop (sliceIdx l.length a)

/-- `PyRedisStore.command_lrange`: parse both indices first; a negative
`stop` is rebased once against the length; `py_end` is `stop + 1` except
for the special case `start == 0 and stop == -1` (checked after rebasing)
which takes the whole tail; the result is the raw Python slice. -/
def command_lrange (now : ℚ) (key start_str stop_str : String) (s : Store) :
    RValue × Store :=
  match pyInt? start_str, pyInt? stop_str with
  | some start, some stop =>
    let r := get_value_or_error now key (some .list) s
    match r.2.1 with
    | some e => (.str ("ERROR: " ++ e), r.2.2)
    | none =>
      match r.1 with
      | some (.list l) =>
        let stop1 := if stop < 0 then (l.length : Int) + stop else stop
        if start = 0 ∧ stop1 = -1 then (.strlist (pySliceFrom l start), r.2.2)
        else (.strlist (pySlice l start (stop1 + 1)), r.2.2)
      | _ => (.strlist [], r.2.2)
  | _, _ => (.str "ERROR: value is not an integer or out of range", s)

/-- `PyRedisStore.command_ttl`: -2 when absent or (lazily or logically)
expired, -1 when persistent, else the remaining whole seconds. -/
def command_ttl (now : ℚ) (key : String) (s : Store) : RValue × Store :=
  if (alookup s.data key).isSome = false then (.int (-2), s)
  else
    let c := check_expiry now key s
    if c.1 then (.int (-2), c.2)
    else
      match alookup c.2.expirations key with
      | some d =>
        if 0 < d - now then (.int (Rat.floor (d - now)), c.2)
        else (.int (-2), c.2)
      | none => (.int (-1), c.2)

/-- `PyRedisStore.command_expire`: 0 for a missing or just-expired key or an
unparsable argument; seconds ≤ 0 removes a deadline (1 if one was removed,
else 0); seconds > 0 sets deadline `now + seconds` and returns 1. -/
def command_expire (now : ℚ) (key seconds : String) (s : Store) :
    RValue × Store :=
  if (alookup s.data key).isSome = false then (.int 0, s)
  else
    let c := check_expiry now key s
    if c.1 then (.int 0, c.2)
    else
      match pyInt? seconds with
      | some m =>
        if m ≤ 0 then
          if (alookup c.2.expirations key).isSome then
            (.int 1, ⟨c.2.data, aerase c.2.expirations key⟩)
          else (.int 0, c.2)
        else (.int 1, ⟨c.2.data, aset c.2.expirations key (now + (m : ℚ))⟩)
      | none => (.int 0, c.2)

/-- `PyRedisStore.command_hset`. -/
def command_hset (now : ℚ) (key field value : String) (s : Store) :
    RValue × Store :=
  let c := check_expiry now key s
  if c.1 then
    (.int 1, ⟨aset c.2.data key (.hash [(field, value)]), aerase c.2.expirations key⟩)
  else
    match alookup c.2.data key with
    | none =>
      (.int 1, ⟨aset c.2.data key (.hash [(field, value)]), aerase c.2.expirations key⟩)
    | some (.hash h) =>
      ((if (alookup h field).isSome then .int 0 else .int 1),
       ⟨aset c.2.data key (.hash (aset h field value)), c.2.expirations⟩)
    | some _ => (.str ("ERROR: " ++ wrongtypeMsg), c.2)

/-- `PyRedisStore.command_hget`. -/
def command_hget (now : ℚ) (key field : String) (s : Store) : RValue × Store :=
  let r := get_value_or_error now key (some .hash) s
  match r.2.1 with
  | some e => (.str ("ERROR: " ++ e), r.2.2)
  | none =>
    match r.1 with
    | some (.hash h) =>
      match alookup h field with
      | some fv => (.str fv, r.2.2)
      | none => (.nil, r.2.2)
    | _ => (.nil, r.2.2)

/-- The per-field loop of `command_hdel`: delete each present field,
counting removals. -/
def hdelLoop (fields : List String) (h : List (String × String)) (c : Nat) :
    List (String × String) × Nat :=
  match fields with
  | [] => (h, c)
  | f :: fs =>
    if (alookup h f).isSome then hdelLoop fs (aerase h f) (c + 1)
    else hdelLoop fs h c

/-- `PyRedisStore.command_hdel`: the hash is mutated in place; if it ends up
empty the whole key is deleted. -/
def command_hdel (now : ℚ) (key : String) (fields : List String) (s : Store) :
    RValue × Store :=
  if fields = [] then
    (.str "ERROR: wrong number of arguments for 'hdel' command", s)
  else
    let r := get_value_or_error now key (some .hash) s
    match r.2.1 with
    | some e => (.str ("ERROR: " ++ e), r.2.2)
    | none =>
      match r.1 with
      | some (.hash h) =>
        let d := hdelLoop fields h 0
        let s2 : Store := ⟨aset r.2.2.data key (.hash d.1), r.2.2.expirations⟩
        if d.1 = [] then (.int d.2, (delete_key_internal key s2).2)
        else (.int d.2, s2)
      | _ => (.int 0, r.2.2)

/-- Python `str.upper()` on a token (ASCII letters, as Python for ASCII). -/
def pyToUpper (s : String) : String :=
  ⟨s.data.map Char.toUpper⟩

/-- Python `str.strip()`: drop whitespace from both ends. -/
def pyStrip (s : String) : String :=
  ⟨((s.data.dropWhile Char.isWhitespace).reverse.dropWhile Char.isWhitespace).reverse⟩

/-- The token accumulator behind `pySplit`. -/
def splitWSAux : List Char → List Char → List String
  | [], acc => if acc = [] then [] else [⟨acc.reverse⟩]
  | c :: cs, acc =>
    if c.isWhitespace then
      if acc = [] then splitWSAux cs [] else ⟨acc.reverse⟩ :: splitWSAux cs []
    else splitWSAux cs (c :: acc)

/-- Python `str.split()`: split on whitespace runs, no empty tokens. -/
def pySplit (s : String) : List String :=
  splitWSAux s.data []

/-- What `handle_connection` does with one parsed line. -/
inductive ServerAction where
  | reply (msg : String)
  | replyClose (msg : String)
  | skip
  | saveToDisk
deriving DecidableEq, Repr

/-- Response rendering in `handle_connection`: `None` → `"Nil"`, a list →
newline-joined elements, an int → `":"`-prefixed, anything else verbatim. -/
def render (r : RValue) : String :=
  match r with
  | .nil => "Nil"
  | .strlist l => String.intercalate "\n" l
  | .int n => ":" ++ toString n
  | .str t => t

/-- The non-SAVE dispatch of `handle_connection`, translated with its
if/elif nesting exactly as written: the branches from DEL onward, the
PING/COMMAND/QUIT replies and the unknown-command error are all nested
inside the GET branch (under `len(args) != 1`), so they can only fire when
`command == "GET"` — for any other command no branch assigns a response and
it stays `None`. -/
def dispatch (now : ℚ) (command : String) (args : List String) (s : Store) :
    RValue × Store :=
  if command = "SET" then
    if args.length = 2 then command_set now (args.getD 0 "") (args.getD 1 "") none s
    else if args.length = 4 ∧ pyToUpper (args.getD 2 "") = "EX" then
      command_set now (args.getD 0 "") (args.getD 1 "") (some (args.getD 3 "")) s
    else (.str "ERROR: wrong number of arguments for 'set' command", s)
  else if command = "GET" then
    if args.length = 1 then command_get now (args.getD 0 "") s
    else if command = "DEL" then
      if 1 ≤ args.length then command_del now args s
      else (.str "ERROR: wrong number of arguments for 'del' command", s)
    else if command = "LPUSH" then
      if 2 ≤ args.length then command_lpush now (args.getD 0 "") args.tail s
      else (.str "ERROR: wrong number of arguments for 'lpush' command", s)
    else if command = "RPUSH" then
      if 2 ≤ args.length then command_rpush now (args.getD 0 "") args.tail s
      else (.str "ERROR: wrong number of arguments for 'rpush' command", s)
    else if command = "LRANGE" then
      if args.length = 3 then
        command_lrange now (args.getD 0 "") (args.getD 1 "") (args.getD 2 "") s
      else (.str "ERROR: wrong number of arguments for 'lrange' command", s)
    else if command = "HSET" then
      if args.length = 3 then
        command_hset now (args.getD 0 "") (args.getD 1 "") (args.getD 2 "") s
      else (.str "ERROR: wrong number of arguments for 'hset' command", s)
    else if command = "HGET" then
      if args.length = 2 then command_hget now (args.getD 0 "") (args.getD 1 "") s
      else (.str "ERROR: wrong number of arguments for 'hget' command", s)
    else if command = "HDEL" then
      if 2 ≤ args.length then command_hdel now (args.getD 0 "") args.tail s
      else (.str "ERROR: wrong number of arguments for 'hdel' command", s)
    else if command = "TTL" then
      if args.length = 1 then command_ttl now (args.getD 0 "") s
      else (.str "ERROR: wrong number of arguments for 'ttl' command", s)
    else if command = "EXPIRE" then
      if args.length = 2 then command_expire now (args.getD 0 "") (args.getD 1 "") s
      else (.str "ERROR: wrong number of arguments for 'expire' command", s)
    else if command = "PING" then (.str "PONG", s)
    else if command = "COMMAND" then (.str "Commands: ...", s)
    else if command = "QUIT" then (.str "OK", s)
    else (.str ("ERROR: Unknown command '" ++ command ++ "'"), s)
  else (.nil, s)

/-- One iteration of `handle_connection`'s inner loop on an extracted line:
strip it, skip if empty, tokenize, uppercase the command; `SAVE` with no
arguments goes to disk; everything else is dispatched under the store lock;
`QUIT` then closes after replying `"OK"`, and otherwise the rendered
response is written back. -/
def processLine (now : ℚ) (line : String) (s : Store) : ServerAction × Store :=
  let cl := pyStrip line
  if cl = "" then (.skip, s)
  else
    match pySplit cl with
    | [] => (.skip, s)
    | w :: args =>
      let command := pyToUpper w
      if command = "SAVE" ∧ args = [] then (.saveToDisk, s)
      else
        let r :=
          if command = "SAVE" then
            (RValue.str "ERROR: 'save' command takes no arguments", s)
          else dispatch now command args s
        if command = "QUIT" then (.replyClose "OK", r.2)
        else (.reply (render r.1), r.2)

/-- The `expirations ⊆ entries` key-set invariant of the spec's data
model. -/
def Inv (s : Store) : Prop :=
  ∀ k d, alookup s.expirations k = some d → (alookup s.data k).isSome

/-- Whether `check_expiry` would delete the key at instant `now`. -/
def isExpired (now : ℚ) (key : String) (s : Store) : Bool :=
  (check_expiry now key s).1

/-- The LRANGE semantics exactly as the specification text words it:
normalize each negative index against the current length, clamp to the
bounds `[0, n-1]`, and return the inclusive slice, with out-of-range or
inverted ranges yielding the empty sequence. (Written from the spec's
words, to be compared with `command_lrange`.) -/
def lrange_claim_spec (l : List String) (start stop : Int) : List String :=
  let n : Int := l.length
  let start1 := if start < 0 then n + start else start
  let stop1 := if stop < 0 then n + stop else stop
  let a := max start1 0
  let b := min stop1 (n - 1)
  if b < a then [] else (l.drop a.toNat).take (b + 1 - a).toNat

/-! ### Association-list lemmas -/

theorem alookup_aset_self {α : Type} (l : List (String × α)) (k : String) (v : α) :
    alookup (aset l k v) k = some v := by
  induction l with
  | nil => simp [aset, alookup]
  | cons p t ih =>
    rcases p with ⟨k2, w⟩
    by_cases h : k2 = k
    · simp [aset, alookup, h]
    · simp [aset, alookup, h, ih]

theorem alookup_aset_ne {α : Type} (l : List (String × α)) (k k' : String) (v : α)
    (h : k' ≠ k) : alookup (aset l k v) k' = alookup l k' := by
  induction l with
  | nil => simp [aset, alookup, Ne.symm h]
  | cons p t ih =>
    rcases p with ⟨k2, w⟩
    by_cases hp : k2 = k
    · subst hp
      simp [aset, alookup, Ne.symm h]
    · simp [aset, alookup, hp, ih]

theorem alookup_aerase_self {α : Type} (l : List (String × α)) (k : String) :
    alookup (aerase l k) k = none := by
  induction l with
  | nil => rfl
  | cons p t ih =>
    rcases p with ⟨k2, w⟩
    by_cases h : k2 = k
    · simpa [aerase, List.filter_cons, h] using ih
    · simpa [aerase, List.filter_cons, alookup, h] using ih

theorem alookup_aerase_ne {α : Type} (l : List (String × α)) (k k' : String)
    (h : k' ≠ k) : alookup (aerase l k) k' = alookup l k' := by
  induction l with
  | nil => rfl
  | cons p t ih =>
    rcases p with ⟨k2, w⟩
    by_cases hp : k2 = k
    · rw [show aerase ((k2, w) :: t) k = aerase t k by simp [aerase, hp]]
      rw [ih]
      subst hp
      simp [alookup, Ne.symm h]
    · rw [show aerase ((k2, w) :: t) k = (k2, w) :: aerase t k by simp [aerase, hp]]
      simp only [alookup]
      rw [ih]

/-! ### Expiry-helper lemmas -/

theorem check_expiry_of_not_expired (now : ℚ) (key : String) (s : Store)
    (h : isExpired now key s = false) : (check_expiry now key s).2 = s := by
  unfold isExpired check_expiry at *
  rcases he : alookup s.expirations key with _ | d
  · simp [he]
  · simp only [he] at h ⊢
    by_cases hd : d < now
    · simp [hd] at h
    · simp [hd]

theorem check_expiry_of_expired (now : ℚ) (key : String) (s : Store)
    (h : isExpired now key s = true) :
    (check_expiry now key s).2 = (delete_key_internal key s).2 := by
  unfold isExpired check_expiry at *
  rcases he : alookup s.expirations key with _ | d
  · simp [he] at h
  · simp only [he] at h ⊢
    by_cases hd : d < now
    · simp [hd]
    · simp [hd] at h

theorem isExpired_of_deadline_past (now : ℚ) (key : String) (s : Store) (d : ℚ)
    (he : alookup s.expirations key = some d) (hd : d < now) :
    isExpired now key s = true := by
  unfold isExpired check_expiry
  simp [he, hd]

theorem isExpired_of_no_deadline (now : ℚ) (key : String) (s : Store)
    (he : alookup s.expirations key = none) : isExpired now key s = false := by
  unfold isExpired check_expiry
  simp [he]

theorem get_value_or_error_store (now : ℚ) (key : String) (expected : Option Shape)
    (s : Store) :
    (get_value_or_error now key expected s).2.2 = (check_expiry now key s).2 := by
  unfold get_value_or_error
  by_cases h : (check_expiry now key s).1 <;> simp only [h]
  · simp
  · simp only [Bool.false_eq_true, if_false]
    rcases hl : alookup (check_expiry now key s).2.data key with _ | v
    · rfl
    · rcases expected with _ | sh
      · rfl
      · by_cases hs : v.shape = sh <;> simp [hs]

theorem get_value_or_error_found (now : ℚ) (key : String) (sh : Shape) (s : Store)
    (v : Value) (hx : isExpired now key s = false) (hv : alookup s.data key = some v)
    (hsh : v.shape = sh) :
    get_value_or_error now key (some sh) s = (some v, none, s) := by
  have h2 := check_expiry_of_not_expired now key s hx
  unfold get_value_or_error isExpired at *
  simp [hx, h2, hv, hsh]

theorem get_value_or_error_wrongtype (now : ℚ) (key : String) (sh : Shape) (s : Store)
    (v : Value) (hx : isExpired now key s = false) (hv : alookup s.data key = some v)
    (hsh : v.shape ≠ sh) :
    get_value_or_error now key (some sh) s = (none, some wrongtypeMsg, s) := by
  have h2 := check_expiry_of_not_expired now key s hx
  unfold get_value_or_error isExpired at *
  simp [hx, h2, hv, hsh]

/-! ### Preservation of the `expirations ⊆ entries` invariant -/

theorem Inv_delete (key : String) (s : Store) (h : Inv s) :
    Inv (delete_key_internal key s).2 := by
  intro k d hk
  dsimp only [delete_key_internal] at hk ⊢
  by_cases hke : k = key
  · subst hke
    rw [alookup_aerase_self] at hk
    exact absurd hk (by simp)
  · rw [alookup_aerase_ne _ _ _ hke] at hk
    rw [alookup_aerase_ne _ _ _ hke]
    exact h k d hk

theorem Inv_check (now : ℚ) (key : String) (s : Store) (h : Inv s) :
    Inv (check_expiry now key s).2 := by
  by_cases hx : isExpired now key s = true
  · rw [check_expiry_of_expired now key s hx]
    exact Inv_delete key s h
  · rw [check_expiry_of_not_expired now key s (by simpa using hx)]
    exact h

theorem Inv_aset_data (dta : List (String × Value)) (exps : List (String × ℚ))
    (key : String) (v : Value) (h : Inv ⟨dta, exps⟩) :
    Inv ⟨aset dta key v, exps⟩ := by
  intro k d hk
  by_cases hke : k = key
  · subst hke
    simp [alookup_aset_self]
  · rw [show (Store.mk (aset dta key v) exps).data = aset dta key v from rfl,
        alookup_aset_ne _ _ _ _ hke]
    exact h k d hk

theorem Inv_aerase_exps (dta : List (String × Value)) (exps : List (String × ℚ))
    (key : String) (h : Inv ⟨dta, exps⟩) : Inv ⟨dta, aerase exps key⟩ := by
  intro k d hk
  by_cases hke : k = key
  · subst hke
    rw [show (Store.mk dta (aerase exps k)).expirations = aerase exps k from rfl,
        alookup_aerase_self] at hk
    exact absurd hk (by simp)
  · rw [show (Store.mk dta (aerase exps key)).expirations = aerase exps key from rfl,
        alookup_aerase_ne _ _ _ hke] at hk
    exact h k d hk

theorem Inv_aset_exps (dta : List (String × Value)) (exps : List (String × ℚ))
    (key : String) (t : ℚ) (hkey : (alookup dta key).isSome)
    (h : Inv ⟨dta, exps⟩) : Inv ⟨dta, aset exps key t⟩ := by
  intro k d hk
  by_cases hke : k = key
  · subst hke
    exact hkey
  · rw [show (Store.mk dta (aset exps key t)).expirations = aset exps key t from rfl,
        alookup_aset_ne _ _ _ _ hke] at hk
    exact h k d hk

theorem Inv_delLoop (now : ℚ) (keys : List String) (c : Nat) (s : Store)
    (h : Inv s) : Inv (delLoop now keys c s).2 := by
  induction keys generalizing c s with
  | nil => exact h
  | cons k ks ih =>
    dsimp only [delLoop]
    exact ih _ _ (Inv_delete _ _ (Inv_check now k s h))

theorem Inv_command_set (now : ℚ) (key value : String) (ems : Option String)
    (s : Store) (h : Inv s) : Inv (command_set now key value ems s).2 := by
  have h1 : Inv ⟨aset s.data key (.str value), s.expirations⟩ :=
    Inv_aset_data _ _ _ _ (by rcases s with ⟨d, e⟩; exact h)
  unfold command_set
  rcases ems with _ | ms
  · exact Inv_aerase_exps _ _ _ h1
  · dsimp only
    rcases pyInt? ms with _ | m
    · exact Inv_delete _ _ h1
    · dsimp only
      split
      · exact Inv_delete _ _ h1
      · exact Inv_aset_exps _ _ _ _ (by simp [alookup_aset_self]) h1

theorem command_get_store (now : ℚ) (key : String) (s : Store) :
    (command_get now key s).2 = (check_expiry now key s).2 := by
  have hst := get_value_or_error_store now key (some .str) s
  unfold command_get
  rcases hr : get_value_or_error now key (some .str) s with ⟨v, err, st⟩
  rw [hr] at hst
  dsimp only at hst ⊢
  rcases err with _ | e
  · rcases v with _ | v
    · simpa using hst
    · rcases v <;> simpa using hst
  · simpa using hst

theorem Inv_command_get (now : ℚ) (key : String) (s : Store) (h : Inv s) :
    Inv (command_get now key s).2 := by
  rw [command_get_store]
  exact Inv_check now key s h

theorem Inv_command_del (now : ℚ) (keys : List String) (s : Store) (h : Inv s) :
    Inv (command_del now keys s).2 := by
  unfold command_del
  exact Inv_delLoop now keys 0 s h

theorem Inv_command_lpush (now : ℚ) (key : String) (values : List String)
    (s : Store) (h : Inv s) : Inv (command_lpush now key values s).2 := by
  unfold command_lpush
  have hc : Inv (check_expiry now key s).2 := Inv_check now key s h
  split
  · exact h
  · dsimp only
    split
    · exact Inv_aset_data _ _ _ _
        (Inv_aerase_exps _ _ _ (by rcases hcs : (check_expiry now key s).2 with ⟨d, e⟩; rw [hcs] at hc; exact hc))
    · split
      · exact Inv_aset_data _ _ _ _
          (Inv_aerase_exps _ _ _ (by rcases hcs : (check_expiry now key s).2 with ⟨d, e⟩; rw [hcs] at hc; exact hc))
      · exact Inv_aset_data _ _ _ _
          (by rcases hcs : (check_expiry now key s).2 with ⟨d, e⟩; rw [hcs] at hc; exact hc)
      · exact hc

theorem Inv_command_rpush (now : ℚ) (key : String) (values : List String)
    (s : Store) (h : Inv s) : Inv (command_rpush now key values s).2 := by
  unfold command_rpush
  have hc : Inv (check_expiry now key s).2 := Inv_check now key s h
  split
  · exact h
  · dsimp only
    split
    · exact Inv_aset_data _ _ _ _
        (Inv_aerase_exps _ _ _ (by rcases hcs : (check_expiry now key s).2 with ⟨d, e⟩; rw [hcs] at hc; exact hc))
    · split
      · exact Inv_aset_data _ _ _ _
          (Inv_aerase_exps _ _ _ (by rcases hcs : (check_expiry now key s).2 with ⟨d, e⟩; rw [hcs] at hc; exact hc))
      · exact Inv_aset_data _ _ _ _
          (by rcases hcs : (check_expiry now key s).2 with ⟨d, e⟩; rw [hcs] at hc; exact hc)
      · exact hc

theorem command_lrange_store (now : ℚ) (key a b : String) (s : Store) :
    (command_lrange now key a b s).2 = s ∨
      (command_lrange now key a b s).2 = (check_expiry now key s).2 := by
  unfold command_lrange
  rcases pyInt? a with _ | start
  · left; rfl
  · rcases pyInt? b with _ | stop
    · left; rfl
    · right
      have hst := get_value_or_error_store now key (some .list) s
      rcases hr : get_value_or_error now key (some .list) s with ⟨v, err, st⟩
      rw [hr] at hst
      dsimp only at hst ⊢
      rcases err with _ | e
      · rcases v with _ | v
        · simpa using hst
        · rcases v with t | l | hsh
          · simpa using hst
          · dsimp only
            split <;> split <;> simpa using hst
          · simpa using hst
      · simpa using hst

theorem Inv_command_lrange (now : ℚ) (key a b : String) (s : Store) (h : Inv s) :
    Inv (command_lrange now key a b s).2 := by
  rcases command_lrange_store now key a b s with he | he <;> rw [he]
  · exact h
  · exact Inv_check now key s h

theorem Inv_command_ttl (now : ℚ) (key : String) (s : Store) (h : Inv s) :
    Inv (command_ttl now key s).2 := by
  unfold command_ttl
  have hc : Inv (check_expiry now key s).2 := Inv_check now key s h
  split
  · exact h
  · dsimp only
    split
    · exact hc
    · split
      · split
        · exact hc
        · exact hc
      · exact hc

theorem Inv_command_expire (now : ℚ) (key seconds : String) (s : Store)
    (h : Inv s) : Inv (command_expire now key seconds s).2 := by
  unfold command_expire
  have hc : Inv (check_expiry now key s).2 := Inv_check now key s h
  have hc' : Inv ⟨(check_expiry now key s).2.data, (check_expiry now key s).2.expirations⟩ := by
    rcases hcs : (check_expiry now key s).2 with ⟨d, e⟩
    rw [hcs] at hc
    exact hc
  split
  · exact h
  · rename_i hkey
    dsimp only
    split
    · exact hc
    · rename_i hexp
      split
      · split
        · split
          · exact Inv_aerase_exps _ _ _ hc'
          · exact hc
        · refine Inv_aset_exps _ _ _ _ ?_ hc'
          have hx : isExpired now key s = false := by
            unfold isExpired
            exact Bool.not_eq_true _ |>.mp hexp
          rw [check_expiry_of_not_expired now key s hx]
          simp only [Option.isSome_iff_ne_none]
          simpa using hkey
      · exact hc

theorem Inv_command_hset (now : ℚ) (key field value : String) (s : Store)
    (h : Inv s) : Inv (command_hset now key field value s).2 := by
  unfold command_hset
  have hc : Inv (check_expiry now key s).2 := Inv_check now key s h
  have hc' : Inv ⟨(check_expiry now key s).2.data, (check_expiry now key s).2.expirations⟩ := by
    rcases hcs : (check_expiry now key s).2 with ⟨d, e⟩
    rw [hcs] at hc
    exact hc
  dsimp only
  split
  · exact Inv_aset_data _ _ _ _ (Inv_aerase_exps _ _ _ hc')
  · split
    · exact Inv_aset_data _ _ _ _ (Inv_aerase_exps _ _ _ hc')
    · exact Inv_aset_data _ _ _ _ hc'
    · exact hc

theorem command_hget_store (now : ℚ) (key field : String) (s : Store) :
    (command_hget now key field s).2 = (check_expiry now key s).2 := by
  have hst := get_value_or_error_store now key (some .hash) s
  unfold command_hget
  rcases hr : get_value_or_error now key (some .hash) s with ⟨v, err, st⟩
  rw [hr] at hst
  dsimp only at hst ⊢
  rcases err with _ | e
  · rcases v with _ | v
    · simpa using hst
    · rcases v with t | l | hsh
      · simpa using hst
      · simpa using hst
      · dsimp only
        rcases alookup hsh field with _ | fv <;> simpa using hst
  · simpa using hst

theorem Inv_command_hget (now : ℚ) (key field : String) (s : Store) (h : Inv s) :
    Inv (command_hget now key field s).2 := by
  rw [command_hget_store]
  exact Inv_check now key s h

theorem Inv_command_hdel (now : ℚ) (key : String) (fields : List String)
    (s : Store) (h : Inv s) : Inv (command_hdel now key fields s).2 := by
  unfold command_hdel
  have hst := get_value_or_error_store now key (some .hash) s
  have hc : Inv (check_expiry now key s).2 := Inv_check now key s h
  split
  · exact h
  · rcases hr : get_value_or_error now key (some .hash) s with ⟨v, err, st⟩
    rw [hr] at hst
    dsimp only at hst ⊢
    have hstInv : Inv st := by rw [hst]; exact hc
    have hstInv' : Inv ⟨st.data, st.expirations⟩ := by
      rcases hss : st with ⟨d, e⟩
      rw [hss] at hstInv
      exact hstInv
    rcases err with _ | e
    · rcases v with _ | v
      · exact hstInv
      · rcases v with t | l | hsh
        · exact hstInv
        · exact hstInv
        · dsimp only
          split
          · exact Inv_delete _ _ (Inv_aset_data _ _ _ _ hstInv')
          · exact Inv_aset_data _ _ _ _ hstInv'
    · exact hstInv

/-! ### Miscellaneous helpers -/

theorem aerase_aerase {α : Type} (l : List (String × α)) (k : String) :
    aerase (aerase l k) k = aerase l k := by
  unfold aerase
  rw [List.filter_filter]
  simp

theorem drop_take_eq_drop_take (l : List String) (A E a m : Nat)
    (h1 : A = a) (h2 : E - A = m) : (l.drop A).take (E - A) = (l.drop a).take m := by
  subst h1
  rw [h2]

theorem drop_take_eq_nil (l : List String) (A m : Nat)
    (h : l.length ≤ A ∨ m = 0) : (l.drop A).take m = [] := by
  rcases h with h | h
  · rw [List.drop_eq_nil_of_le h]
    simp
  · simp [h]

/-! ### C1 -/

/-- C1: the spec's dispatch table says `PING` elicits `"PONG"` and `TTL k`
elicits an integer rendered with a leading `:`; the code's dispatch
branches for every command beyond SET/GET sit unreachably nested inside the
GET branch, so the response variable is never assigned and both lines are
answered with `"Nil"`. This theorem evaluates the connection handler at the
failing inputs. -/
theorem c1_ping_and_ttl_reply_nil :
    processLine 0 "PING" ⟨[], []⟩ = (.reply "Nil", ⟨[], []⟩) ∧
    processLine 0 "TTL k" ⟨[("k", Value.str "v")], [("k", 5)]⟩
      = (.reply "Nil", ⟨[("k", Value.str "v")], [("k", 5)]⟩) ∧
    ServerAction.reply "Nil" ≠ ServerAction.reply "PONG" := by
  refine ⟨rfl, rfl, by decide⟩

/-! ### C5 -/

/-- C5, counterexample: the line `FOO` has an unrecognized command name, yet
the handler replies `"Nil"`, not `"ERROR: Unknown command 'FOO'"` — the
unknown-command `else` is nested unreachably inside the GET branch. -/
theorem c5_counterexample :
    processLine 0 "FOO" ⟨[], []⟩ = (.reply "Nil", ⟨[], []⟩) ∧
    ServerAction.reply "Nil" ≠ ServerAction.reply "ERROR: Unknown command 'FOO'" := by
  refine ⟨rfl, by decide⟩

/-- C5 amended: a line whose uppercased first token is anything other than
`SET`, `GET`, `SAVE` or `QUIT` — in particular any unknown command name —
is answered with `"Nil"` (the response variable is never assigned), with no
store state change; the lock is acquired around the dispatch, but no store
operation is invoked. -/
theorem c5_amended_unknown_command_replies_nil
    (now : ℚ) (line : String) (s : Store) (w : String) (args : List String)
    (hsplit : pySplit (pyStrip line) = w :: args)
    (h1 : pyToUpper w ≠ "SET") (h2 : pyToUpper w ≠ "GET")
    (h3 : pyToUpper w ≠ "SAVE") (h4 : pyToUpper w ≠ "QUIT") :
    processLine now line s = (.reply "Nil", s) := by
  have hne : pyStrip line ≠ "" := by
    intro he
    rw [he, show pySplit "" = [] from rfl] at hsplit
    exact List.noConfusion hsplit
  unfold processLine dispatch
  dsimp only
  rw [if_neg hne, hsplit]
  dsimp only
  rw [if_neg (by intro hand; exact h3 hand.1)]
  rw [if_neg h3, if_neg h1, if_neg h2, if_neg h4]
  rfl

/-- Witness for the C5 amended theorem at the concrete line `"FOO bar"`. -/
theorem c5_amended_witness :
    processLine 0 "FOO bar" ⟨[], []⟩ = (.reply "Nil", ⟨[], []⟩) :=
  c5_amended_unknown_command_replies_nil 0 "FOO bar" ⟨[], []⟩ "FOO" ["bar"]
    (by decide) (by decide) (by decide) (by decide) (by decide)

/-! ### C3 -/

/-- C3, counterexample: DEL of a single key whose deadline is strictly in
the past returns 0, not 1 as the claim states — `_check_expiry` has already
removed the key before `_delete_key_internal` looks for it, so the lazy
expiry is never counted. -/
theorem c3_counterexample :
    (command_del 1 ["k"] ⟨[("k", Value.str "v")], [("k", 0)]⟩).1 = RValue.int 0 ∧
    (command_del 1 ["k"] ⟨[("k", Value.str "v")], [("k", 0)]⟩).1 ≠ RValue.int 1 := by
  refine ⟨rfl, by decide⟩

/-- One step of `command_del`'s loop: after processing a key, the store has
that key erased from both maps, and the count grew by 1 exactly when the
key was present and not expired (live) beforehand. -/
theorem delLoop_cons (now : ℚ) (k : String) (ks : List String) (c : Nat)
    (s : Store) :
    delLoop now (k :: ks) c s
      = delLoop now ks
          (if ((alookup s.data k).isSome && !(isExpired now k s)) = true
            then c + 1 else c)
          ⟨aerase s.data k, aerase s.expirations k⟩ := by
  dsimp only [delLoop]
  by_cases hx : isExpired now k s = true
  · rw [check_expiry_of_expired now k s hx, hx]
    simp only [delete_key_internal, alookup_aerase_self, aerase_aerase,
      Option.isSome_none, Bool.not_true, Bool.and_false, Bool.false_eq_true,
      if_false]
  · have hxf : isExpired now k s = false := by simpa using hx
    rw [check_expiry_of_not_expired now k s hxf, hxf]
    simp only [delete_key_internal, Bool.not_false, Bool.and_true]

/-- Deleting one key leaves every other key's expiry status unchanged. -/
theorem isExpired_delete_other (now : ℚ) (k k' : String) (s : Store)
    (h : k' ≠ k) :
    isExpired now k' ⟨aerase s.data k, aerase s.expirations k⟩
      = isExpired now k' s := by
  unfold isExpired check_expiry
  rw [show (Store.mk (aerase s.data k) (aerase s.expirations k)).expirations
      = aerase s.expirations k from rfl, alookup_aerase_ne _ _ _ h]
  rcases he : alookup s.expirations k' with _ | d
  · rfl
  · dsimp only
    split <;> rfl

/-- For a duplicate-free key sequence, `command_del`'s loop adds to its
accumulator exactly the number of keys that are live (present and not
expired) in the starting store. -/
theorem delLoop_count_nodup (now : ℚ) (keys : List String) (c : Nat)
    (s : Store) (h : keys.Nodup) :
    (delLoop now keys c s).1
      = c + keys.countP (fun k => (alookup s.data k).isSome && !(isExpired now k s)) := by
  induction keys generalizing c s with
  | nil => simp [delLoop]
  | cons k ks ih =>
    rcases List.nodup_cons.mp h with ⟨hk, hks⟩
    rw [delLoop_cons, ih _ _ hks]
    have hcount : ks.countP (fun k' =>
          (alookup (Store.mk (aerase s.data k) (aerase s.expirations k)).data k').isSome
            && !(isExpired now k' ⟨aerase s.data k, aerase s.expirations k⟩))
        = ks.countP (fun k' => (alookup s.data k').isSome && !(isExpired now k' s)) := by
      refine List.countP_congr ?_
      intro k' hk'
      have hne : k' ≠ k := fun he => hk (he ▸ hk')
      rw [show (Store.mk (aerase s.data k) (aerase s.expirations k)).data
          = aerase s.data k from rfl, alookup_aerase_ne _ _ _ hne,
        isExpired_delete_other now k k' s hne]
    rw [hcount, List.countP_cons]
    by_cases hc : ((alookup s.data k).isSome && !(isExpired now k s)) = true
    · rw [if_pos hc, if_pos hc]
      omega
    · rw [if_neg hc, if_neg hc]
      omega

/-- C3 amended: DEL first lazily expires each key and then removes it if
still present, and only keys found live (present and not expired, with or
without a deadline) are counted: for every sequence of distinct key
arguments the returned count is exactly the number of keys live in the
starting store; every processed key is removed from both maps; in
particular a single key whose deadline is strictly in the past yields 0
and a single live present key yields 1. -/
theorem c3_amended_del_counts_only_live_keys
    (now : ℚ) (key : String) (keys : List String) (s : Store)
    (hnd : keys.Nodup) :
    ((command_del now keys s).1
      = RValue.int
          (keys.countP (fun k => (alookup s.data k).isSome && !(isExpired now k s)))) ∧
    (isExpired now key s = true →
      command_del now [key] s
        = (RValue.int 0, ⟨aerase s.data key, aerase s.expirations key⟩)) ∧
    (isExpired now key s = false → (alookup s.data key).isSome = true →
      command_del now [key] s
        = (RValue.int 1, ⟨aerase s.data key, aerase s.expirations key⟩)) := by
  refine ⟨?_, ?_, ?_⟩
  · unfold command_del
    dsimp only
    rw [delLoop_count_nodup now keys 0 s hnd]
    simp
  · intro hx
    unfold command_del
    dsimp only
    rw [delLoop_cons]
    simp [delLoop, hx]
  · intro hx hp
    unfold command_del
    dsimp only
    rw [delLoop_cons]
    simp [delLoop, hx, hp]

/-- Witness for the C3 amended theorem at instant 1 on a store where `a` is
live with deadline 5, `b` is live with no deadline, `c` has deadline 0
(expired): `DEL a b c z` returns 2, `DEL c` returns 0 while removing `c`
from both maps, and `DEL b` returns 1. -/
theorem c3_amended_witness :
    (command_del 1 ["a", "b", "c", "z"]
        ⟨[("a", Value.str "1"), ("b", Value.str "2"), ("c", Value.str "3")],
         [("a", 5), ("c", 0)]⟩).1 = RValue.int 2 ∧
    command_del 1 ["c"]
        ⟨[("a", Value.str "1"), ("b", Value.str "2"), ("c", Value.str "3")],
         [("a", 5), ("c", 0)]⟩
      = (RValue.int 0,
         ⟨aerase [("a", Value.str "1"), ("b", Value.str "2"), ("c", Value.str "3")] "c",
          aerase [("a", 5), ("c", 0)] "c"⟩) ∧
    (command_del 1 ["b"]
        ⟨[("a", Value.str "1"), ("b", Value.str "2"), ("c", Value.str "3")],
         [("a", 5), ("c", 0)]⟩).1 = RValue.int 1 := by
  refine ⟨?_, ?_, ?_⟩
  · rw [(c3_amended_del_counts_only_live_keys 1 "c" ["a", "b", "c", "z"]
      ⟨[("a", Value.str "1"), ("b", Value.str "2"), ("c", Value.str "3")],
       [("a", 5), ("c", 0)]⟩ (by decide)).1]
    decide
  · exact (c3_amended_del_counts_only_live_keys 1 "c" []
      ⟨[("a", Value.str "1"), ("b", Value.str "2"), ("c", Value.str "3")],
       [("a", 5), ("c", 0)]⟩ (by decide)).2.1 (by decide)
  · rw [((c3_amended_del_counts_only_live_keys 1 "b" []
      ⟨[("a", Value.str "1"), ("b", Value.str "2"), ("c", Value.str "3")],
       [("a", 5), ("c", 0)]⟩ (by decide)).2.2 (by decide) (by decide))]

/-! ### C4 -/

/-- C4, counterexample: EXPIRE with seconds 0 on a live key with no
deadline returns 0, not 1 as the claim states — the code returns 1 only
when a deadline was actually removed. -/
theorem c4_counterexample :
    (command_expire 0 "k" "0" ⟨[("k", Value.str "v")], []⟩).1 = RValue.int 0 ∧
    (command_expire 0 "k" "0" ⟨[("k", Value.str "v")], []⟩).1 ≠ RValue.int 1 := by
  refine ⟨rfl, by decide⟩

/-- C4 amended: for a live key, EXPIRE with seconds parsing to an integer
≤ 0 removes any existing deadline and leaves the data map untouched, but
returns 1 only when a deadline existed; with no deadline it returns 0. -/
theorem c4_amended_expire_nonpositive
    (now : ℚ) (key seconds : String) (s : Store) (m : Int)
    (hk : (alookup s.data key).isSome = true)
    (hx : isExpired now key s = false)
    (hm : pyInt? seconds = some m) (hm0 : m ≤ 0) :
    (command_expire now key seconds s).1
      = (if (alookup s.expirations key).isSome then RValue.int 1 else RValue.int 0) ∧
    alookup (command_expire now key seconds s).2.expirations key = none ∧
    (command_expire now key seconds s).2.data = s.data := by
  have hcs : (check_expiry now key s).2 = s := check_expiry_of_not_expired now key s hx
  have hc1 : (check_expiry now key s).1 = false := hx
  unfold command_expire
  rw [if_neg (by simp [hk])]
  dsimp only
  rw [hc1]
  simp only [Bool.false_eq_true, if_false, hcs, hm]
  rw [if_pos hm0]
  by_cases he : (alookup s.expirations key).isSome
  · rw [if_pos he]
    simp [he, alookup_aerase_self]
  · rw [if_neg he]
    refine ⟨by simp [he], ?_, rfl⟩
    simpa using he

/-- Witness for the C4 amended theorem at a key with deadline 5, instant 0,
seconds `"0"`: returns 1 and the deadline is gone. -/
theorem c4_amended_witness :
    (command_expire 0 "k" "0" ⟨[("k", Value.str "v")], [("k", 5)]⟩).1 = RValue.int 1 ∧
    alookup (command_expire 0 "k" "0"
      ⟨[("k", Value.str "v")], [("k", 5)]⟩).2.expirations "k" = none := by
  have h := c4_amended_expire_nonpositive 0 "k" "0"
    ⟨[("k", Value.str "v")], [("k", 5)]⟩ 0 (by decide) (by decide) (by decide)
    (by norm_num)
  exact ⟨by simpa using h.1, h.2.1⟩

/-! ### C6 -/

/-- C6, counterexample: EXPIRE with unparsable seconds `"abc"` on a live
key returns the ordinary integer 0 — not a command-specific error string as
the claim (and the spec's error taxonomy) states. -/
theorem c6_counterexample :
    (command_expire 0 "k" "abc" ⟨[("k", Value.str "v")], []⟩).1 = RValue.int 0 ∧
    RValue.int 0 ≠ RValue.str "ERROR: value is not an integer or out of range" := by
  refine ⟨rfl, by decide⟩

/-- C6 amended: when its seconds argument does not parse as an integer,
EXPIRE silently returns the integer 0 with the store unchanged
(indistinguishable from a missing key), unlike LRANGE and SET-with-EX whose
parse failures do produce command-specific error strings. -/
theorem c6_amended_expire_parse_failure_returns_zero
    (now : ℚ) (key seconds lkey a b sval ems : String) (s s2 : Store)
    (hk : (alookup s.data key).isSome = true)
    (hx : isExpired now key s = false)
    (hp : pyInt? seconds = none) :
    command_expire now key seconds s = (RValue.int 0, s) ∧
    (pyInt? a = none →
      command_lrange now lkey a b s2
        = (RValue.str "ERROR: value is not an integer or out of range", s2)) ∧
    (pyInt? ems = none →
      (command_set now lkey sval (some ems) s2).1
        = RValue.str "ERROR: Invalid expiration time format.") := by
  refine ⟨?_, ?_, ?_⟩
  · have hcs : (check_expiry now key s).2 = s := check_expiry_of_not_expired now key s hx
    have hc1 : (check_expiry now key s).1 = false := hx
    unfold command_expire
    rw [if_neg (by simp [hk])]
    dsimp only
    rw [hc1]
    simp [hcs, hp]
  · intro hpa
    unfold command_lrange
    rw [hpa]
  · intro hpe
    unfold command_set
    dsimp only
    rw [hpe]

/-- Witness for the C6 amended theorem at seconds `"abc"`, LRANGE start
`"abc"`, SET EX `"abc"`. -/
theorem c6_amended_witness :
    command_expire 0 "k" "abc" ⟨[("k", Value.str "v")], []⟩
      = (RValue.int 0, ⟨[("k", Value.str "v")], []⟩) ∧
    command_lrange 0 "l" "abc" "0" ⟨[], []⟩
      = (RValue.str "ERROR: value is not an integer or out of range", ⟨[], []⟩) := by
  have h := c6_amended_expire_parse_failure_returns_zero 0 "k" "abc" "l" "abc" "0"
    "v" "abc" ⟨[("k", Value.str "v")], []⟩ ⟨[], []⟩ (by decide) (by decide) (by decide)
  exact ⟨h.1, h.2.1 (by decide)⟩

/-! ### C2 -/

/-- C2, counterexample: `LPUSH l a` then `LPUSH l b c` then `LRANGE l 0 -1`
yields `["b","c","a"]`, not `["c","b","a"]` as the claim states — iterating
`appendleft` over `reversed(values)` leaves the pushed block in argument
order at the front (the test suite asserts exactly this). -/
theorem c2_counterexample :
    (command_lrange 0 "l" "0" "-1"
        (command_lpush 0 "l" ["b", "c"] (command_lpush 0 "l" ["a"] ⟨[], []⟩).2).2).1
      = RValue.strlist ["b", "c", "a"] ∧
    (command_lrange 0 "l" "0" "-1"
        (command_lpush 0 "l" ["b", "c"] (command_lpush 0 "l" ["a"] ⟨[], []⟩).2).2).1
      ≠ RValue.strlist ["c", "b", "a"] := by
  refine ⟨rfl, by decide⟩

/-- C2 amended: LPUSH on an absent (or just-expired) key creates a list
equal to the argument sequence, so its front element is the FIRST argument;
LPUSH on a live List prepends the arguments as a block in argument order,
i.e. the new contents are `values ++ old` and the reported length is the
new total. Consequently `LPUSH l a`, `LPUSH l b c`, `LRANGE l 0 -1` yields
`b, c, a`. -/
theorem c2_amended_lpush_keeps_argument_order
    (now : ℚ) (key : String) (values l : List String) (s : Store)
    (hv : values ≠ []) :
    (alookup (check_expiry now key s).2.data key = none →
      (command_lpush now key values s).1 = RValue.int values.length ∧
      alookup (command_lpush now key values s).2.data key
        = some (.list values)) ∧
    (isExpired now key s = false → alookup s.data key = some (.list l) →
      (command_lpush now key values s).1 = RValue.int (values ++ l).length ∧
      alookup (command_lpush now key values s).2.data key
        = some (.list (values ++ l))) := by
  constructor
  · intro habs
    unfold command_lpush
    rw [if_neg hv]
    dsimp only
    by_cases hc : (check_expiry now key s).1
    · rw [if_pos hc]
      exact ⟨by simp, by simp [alookup_aset_self]⟩
    · rw [if_neg hc, habs]
      exact ⟨by simp, by simp [alookup_aset_self]⟩
  · intro hx hl
    have hcs : (check_expiry now key s).2 = s := check_expiry_of_not_expired now key s hx
    have hc1 : (check_expiry now key s).1 = false := hx
    unfold command_lpush
    rw [if_neg hv]
    dsimp only
    rw [hc1]
    simp only [Bool.false_eq_true, if_false, hcs, hl]
    exact ⟨by simp, by simp [alookup_aset_self]⟩

/-- Witness for the C2 amended theorem: creating `["x","y"]` on an empty
store, and pushing `["b","c"]` onto a live `["a"]`. -/
theorem c2_amended_witness :
    ((command_lpush 0 "l" ["x", "y"] ⟨[], []⟩).1 = RValue.int 2 ∧
      alookup (command_lpush 0 "l" ["x", "y"] ⟨[], []⟩).2.data "l"
        = some (.list ["x", "y"])) ∧
    ((command_lpush 0 "l" ["b", "c"] ⟨[("l", Value.list ["a"])], []⟩).1
        = RValue.int 3 ∧
      alookup (command_lpush 0 "l" ["b", "c"]
          ⟨[("l", Value.list ["a"])], []⟩).2.data "l"
        = some (.list ["b", "c", "a"])) := by
  constructor
  · have h := (c2_amended_lpush_keeps_argument_order 0 "l" ["x", "y"] []
      ⟨[], []⟩ (by decide)).1 (by decide)
    simpa using h
  · have h := (c2_amended_lpush_keeps_argument_order 0 "l" ["b", "c"] ["a"]
      ⟨[("l", Value.list ["a"])], []⟩ (by decide)).2 (by decide) (by decide)
    simpa using h

/-! ### C8 -/

/-- C8: applying GET, LPUSH, RPUSH, LRANGE, HSET, HGET or HDEL to a live
key holding an incompatible shape returns exactly
`"ERROR: WRONGTYPE Operation against a key holding the wrong kind of
value"` and returns the store unchanged (both maps identical). LRANGE is
taken with integer-parsing indices and LPUSH/RPUSH/HDEL with a non-empty
argument list, since their arity/parse checks run first. -/
theorem c8_wrongtype_error_and_no_state_change
    (now : ℚ) (key a b field fval : String) (values fields : List String)
    (s : Store) (v : Value)
    (hv : alookup s.data key = some v) (hx : isExpired now key s = false) :
    (v.shape ≠ .str →
      command_get now key s = (.str ("ERROR: " ++ wrongtypeMsg), s)) ∧
    (v.shape ≠ .list → values ≠ [] →
      command_lpush now key values s = (.str ("ERROR: " ++ wrongtypeMsg), s)) ∧
    (v.shape ≠ .list → values ≠ [] →
      command_rpush now key values s = (.str ("ERROR: " ++ wrongtypeMsg), s)) ∧
    (v.shape ≠ .list → ∀ sa sb : Int, pyInt? a = some sa → pyInt? b = some sb →
      command_lrange now key a b s = (.str ("ERROR: " ++ wrongtypeMsg), s)) ∧
    (v.shape ≠ .hash →
      command_hset now key field fval s = (.str ("ERROR: " ++ wrongtypeMsg), s)) ∧
    (v.shape ≠ .hash →
      command_hget now key field s = (.str ("ERROR: " ++ wrongtypeMsg), s)) ∧
    (v.shape ≠ .hash → fields ≠ [] →
      command_hdel now key fields s = (.str ("ERROR: " ++ wrongtypeMsg), s)) := by
  have hcs : (check_expiry now key s).2 = s := check_expiry_of_not_expired now key s hx
  have hc1 : (check_expiry now key s).1 = false := hx
  refine ⟨?_, ?_, ?_, ?_, ?_, ?_, ?_⟩
  · intro hsh
    unfold command_get
    rw [get_value_or_error_wrongtype now key .str s v hx hv hsh]
  · intro hsh hvv
    unfold command_lpush
    rw [if_neg hvv]
    dsimp only
    rw [hc1]
    simp only [Bool.false_eq_true, if_false, hcs, hv]
    rcases v with t | l | hh
    · rfl
    · exact absurd rfl hsh
    · rfl
  · intro hsh hvv
    unfold command_rpush
    rw [if_neg hvv]
    dsimp only
    rw [hc1]
    simp only [Bool.false_eq_true, if_false, hcs, hv]
    rcases v with t | l | hh
    · rfl
    · exact absurd rfl hsh
    · rfl
  · intro hsh sa sb hsa hsb
    unfold command_lrange
    rw [hsa, hsb, get_value_or_error_wrongtype now key .list s v hx hv hsh]
  · intro hsh
    unfold command_hset
    dsimp only
    rw [hc1]
    simp only [Bool.false_eq_true, if_false, hcs, hv]
    rcases v with t | l | hh
    · rfl
    · rfl
    · exact absurd rfl hsh
  · intro hsh
    unfold command_hget
    rw [get_value_or_error_wrongtype now key .hash s v hx hv hsh]
  · intro hsh hff
    unfold command_hdel
    rw [if_neg hff]
    dsimp only
    rw [get_value_or_error_wrongtype now key .hash s v hx hv hsh]

/-- Witness for C8: GET and HSET against a live List key, LPUSH against a
live Str key. -/
theorem c8_witness :
    command_get 0 "k" ⟨[("k", Value.list ["a"])], []⟩
      = (.str ("ERROR: " ++ wrongtypeMsg), ⟨[("k", Value.list ["a"])], []⟩) ∧
    command_hset 0 "k" "f" "v" ⟨[("k", Value.list ["a"])], []⟩
      = (.str ("ERROR: " ++ wrongtypeMsg), ⟨[("k", Value.list ["a"])], []⟩) ∧
    command_lpush 0 "k" ["x"] ⟨[("k", Value.str "s")], []⟩
      = (.str ("ERROR: " ++ wrongtypeMsg), ⟨[("k", Value.str "s")], []⟩) := by
  have h1 := c8_wrongtype_error_and_no_state_change 0 "k" "0" "0" "f" "v" ["x"] ["f"]
    ⟨[("k", Value.list ["a"])], []⟩ (Value.list ["a"]) (by decide) (by decide)
  have h2 := c8_wrongtype_error_and_no_state_change 0 "k" "0" "0" "f" "v" ["x"] ["f"]
    ⟨[("k", Value.str "s")], []⟩ (Value.str "s") (by decide) (by decide)
  exact ⟨h1.1 (by decide), h1.2.2.2.2.1 (by decide),
    h2.2.1 (by decide) (by decide)⟩

/-! ### C10 -/

/-- C10: mutating a live collection in place preserves its TTL state:
LPUSH/RPUSH on a live List, HSET on a live Hash, and HDEL on a live Hash
that stays non-empty all leave the expirations map (hence the key's
deadline or its absence) exactly as it was. -/
theorem c10_in_place_mutation_preserves_expirations
    (now : ℚ) (key field value : String) (values fields : List String)
    (s : Store) (l : List String) (h : List (String × String))
    (hx : isExpired now key s = false) :
    (alookup s.data key = some (.list l) → values ≠ [] →
      (command_lpush now key values s).2.expirations = s.expirations ∧
      (command_rpush now key values s).2.expirations = s.expirations) ∧
    (alookup s.data key = some (.hash h) →
      (command_hset now key field value s).2.expirations = s.expirations) ∧
    (alookup s.data key = some (.hash h) → fields ≠ [] →
      (hdelLoop fields h 0).1 ≠ [] →
      (command_hdel now key fields s).2.expirations = s.expirations) := by
  have hcs : (check_expiry now key s).2 = s := check_expiry_of_not_expired now key s hx
  have hc1 : (check_expiry now key s).1 = false := hx
  refine ⟨?_, ?_, ?_⟩
  · intro hl hvv
    constructor
    · unfold command_lpush
      rw [if_neg hvv]
      dsimp only
      rw [hc1]
      simp [hcs, hl]
    · unfold command_rpush
      rw [if_neg hvv]
      dsimp only
      rw [hc1]
      simp [hcs, hl]
  · intro hh
    unfold command_hset
    dsimp only
    rw [hc1]
    simp [hcs, hh]
  · intro hh hff hne
    unfold command_hdel
    rw [if_neg hff]
    dsimp only
    rw [get_value_or_error_found now key .hash s (.hash h) hx hh rfl]
    dsimp only
    rw [if_neg hne]

/-- Witness for C10: a live list under a deadline keeps its deadline across
LPUSH, and a two-field live hash keeps its deadline across an HDEL that
removes one field. -/
theorem c10_witness :
    (command_lpush 0 "l" ["x"] ⟨[("l", Value.list ["a"])], [("l", 9)]⟩).2.expirations
      = [("l", 9)] ∧
    (command_hdel 0 "h" ["f1"]
        ⟨[("h", Value.hash [("f1", "1"), ("f2", "2")])], [("h", 9)]⟩).2.expirations
      = [("h", 9)] := by
  have h1 := c10_in_place_mutation_preserves_expirations 0 "l" "f" "v" ["x"] ["f1"]
    ⟨[("l", Value.list ["a"])], [("l", 9)]⟩ ["a"] [] (by decide)
  have h2 := c10_in_place_mutation_preserves_expirations 0 "h" "f" "v" ["x"] ["f1"]
    ⟨[("h", Value.hash [("f1", "1"), ("f2", "2")])], [("h", 9)]⟩ []
    [("f1", "1"), ("f2", "2")] (by decide)
  exact ⟨(h1.1 (by decide) (by decide)).1,
    h2.2.2 (by decide) (by decide) (by decide)⟩

/-! ### C9 -/

/-- C9: every store command method preserves the invariant that the key set
of the expirations map is contained in the key set of the entries map, and
`_delete_key_internal` (used by every explicit or expiry-triggered
deletion) removes the key from both maps. -/
theorem c9_commands_preserve_subset_invariant
    (now : ℚ) (s : Store) (key value field seconds a b : String)
    (keys values fields : List String) (ems : Option String)
    (hInv : Inv s) :
    Inv (command_set now key value ems s).2 ∧
    Inv (command_get now key s).2 ∧
    Inv (command_del now keys s).2 ∧
    Inv (command_lpush now key values s).2 ∧
    Inv (command_rpush now key values s).2 ∧
    Inv (command_lrange now key a b s).2 ∧
    Inv (command_hset now key field value s).2 ∧
    Inv (command_hget now key field s).2 ∧
    Inv (command_hdel now key fields s).2 ∧
    Inv (command_ttl now key s).2 ∧
    Inv (command_expire now key seconds s).2 ∧
    alookup (delete_key_internal key s).2.data key = none ∧
    alookup (delete_key_internal key s).2.expirations key = none :=
  ⟨Inv_command_set now key value ems s hInv,
   Inv_command_get now key s hInv,
   Inv_command_del now keys s hInv,
   Inv_command_lpush now key values s hInv,
   Inv_command_rpush now key values s hInv,
   Inv_command_lrange now key a b s hInv,
   Inv_command_hset now key field value s hInv,
   Inv_command_hget now key field s hInv,
   Inv_command_hdel now key fields s hInv,
   Inv_command_ttl now key s hInv,
   Inv_command_expire now key seconds s hInv,
   alookup_aerase_self s.data key,
   alookup_aerase_self s.expirations key⟩

/-- Witness for C9 at a concrete store satisfying the invariant, checking
the SET and deletion conjuncts. -/
theorem c9_witness :
    Inv (command_set 0 "k" "v" (some "2000")
      (Store.mk [("k", Value.str "old")] [("k", 5)])).2 ∧
    alookup (delete_key_internal "k"
      (Store.mk [("k", Value.str "old")] [("k", 5)])).2.expirations "k" = none := by
  have hInv : Inv (Store.mk [("k", Value.str "old")] [("k", 5)]) := by
    intro k d hk
    simp only [alookup] at hk ⊢
    by_cases h1 : "k" = k <;> simp_all
  have h := c9_commands_preserve_subset_invariant 0
    (Store.mk [("k", Value.str "old")] [("k", 5)]) "k" "v" "f" "2" "0" "-1"
    ["k"] ["x"] ["f"] (some "2000") hInv
  exact ⟨h.1, h.2.2.2.2.2.2.2.2.2.2.2.2⟩

/-! ### C7 -/

theorem pySlice_eq_claim_spec (l : List String) (start stop : Int)
    (h : 0 ≤ (if stop < 0 then (l.length : Int) + stop else stop)) :
    pySlice l start ((if stop < 0 then (l.length : Int) + stop else stop) + 1)
      = lrange_claim_spec l start stop := by
  unfold pySlice lrange_claim_spec sliceIdx
  dsimp only
  split_ifs at h ⊢ <;>
    first
      | (refine drop_take_eq_drop_take l _ _ _ _ ?_ ?_ <;> omega)
      | (refine drop_take_eq_nil l _ _ ?_
         omega)

theorem command_lrange_live_list (now : ℚ) (key a b : String) (s : Store)
    (l : List String) (start stop : Int)
    (ha : pyInt? a = some start) (hb : pyInt? b = some stop)
    (hl : alookup s.data key = some (.list l)) (hx : isExpired now key s = false) :
    command_lrange now key a b s
      = (if start = 0 ∧ (if stop < 0 then (l.length : Int) + stop else stop) = -1
          then (RValue.strlist (pySliceFrom l start), s)
          else (RValue.strlist
            (pySlice l start ((if stop < 0 then (l.length : Int) + stop else stop) + 1)), s)) := by
  unfold command_lrange
  rw [ha, hb, get_value_or_error_found now key .list s (.list l) hx hl rfl]

/-- C7, counterexample: on the live list `["a","b","c"]` (n = 3), `LRANGE k
0 -5` has `stop = -5 ≤ -(n+2)`, so the claim demands the empty sequence;
the code rebases the stop once (to -2), adds 1 and hands the still-negative
end straight to Python slicing, returning `["a","b"]`. -/
theorem c7_counterexample :
    (command_lrange 0 "k" "0" "-5" ⟨[("k", Value.list ["a", "b", "c"])], []⟩).1
      = RValue.strlist ["a", "b"] ∧
    lrange_claim_spec ["a", "b", "c"] 0 (-5) = [] ∧
    RValue.strlist ["a", "b"] ≠ RValue.strlist [] := by
  refine ⟨rfl, rfl, by decide⟩

/-- C7 amended: for a live List of length n with integer-parsing indices,
write stopN for the once-rebased stop (n + stop when stop < 0, else stop).
Whenever stopN ≥ 0 the claimed normalize-and-clamp inclusive-slice
semantics holds exactly (out-of-range or inverted ranges empty). But when
stopN is negative the result is not always empty: `start = 0` with
`stopN = -1` (i.e. `stop = -(n+1)`, or `stop = -1` on an empty list)
returns the whole list, and otherwise the still-negative exclusive end
`stopN + 1` is handed to Python slicing, which counts it from the end
again — so e.g. `stop ≤ -(n+2)` with `start = 0` returns a non-empty
prefix for n ≥ 2. -/
theorem c7_amended_lrange_python_slice
    (now : ℚ) (key a b : String) (s : Store) (l : List String)
    (start stop : Int)
    (ha : pyInt? a = some start) (hb : pyInt? b = some stop)
    (hl : alookup s.data key = some (.list l)) (hx : isExpired now key s = false) :
    (0 ≤ (if stop < 0 then (l.length : Int) + stop else stop) →
      command_lrange now key a b s
        = (RValue.strlist (lrange_claim_spec l start stop), s)) ∧
    (start = 0 ∧ (if stop < 0 then (l.length : Int) + stop else stop) = -1 →
      command_lrange now key a b s = (RValue.strlist l, s)) ∧
    ((if stop < 0 then (l.length : Int) + stop else stop) < 0 →
      ¬(start = 0 ∧ (if stop < 0 then (l.length : Int) + stop else stop) = -1) →
      command_lrange now key a b s
        = (RValue.strlist
            (pySlice l start ((if stop < 0 then (l.length : Int) + stop else stop) + 1)), s)) := by
  have hred := command_lrange_live_list now key a b s l start stop ha hb hl hx
  refine ⟨?_, ?_, ?_⟩
  · intro h0
    rw [hred, if_neg (by rintro ⟨h1, h2⟩; omega)]
    rw [pySlice_eq_claim_spec l start stop h0]
  · rintro ⟨h1, h2⟩
    rw [hred, if_pos ⟨h1, h2⟩, h1]
    simp [pySliceFrom, sliceIdx]
  · intro hneg hnot
    rw [hred, if_neg hnot]

/-- Witness for the C7 amended theorem on the live list `["a","b","c"]`:
`LRANGE k 0 -1` (stopN = 2 ≥ 0) equals the claimed clamp semantics, and
`LRANGE k 0 -4` (stopN = -1 with start 0) returns the whole list. -/
theorem c7_amended_witness :
    command_lrange 0 "k" "0" "-1" ⟨[("k", Value.list ["a", "b", "c"])], []⟩
      = (RValue.strlist (lrange_claim_spec ["a", "b", "c"] 0 (-1)),
         ⟨[("k", Value.list ["a", "b", "c"])], []⟩) ∧
    command_lrange 0 "k" "0" "-4" ⟨[("k", Value.list ["a", "b", "c"])], []⟩
      = (RValue.strlist ["a", "b", "c"],
         ⟨[("k", Value.list ["a", "b", "c"])], []⟩) := by
  constructor
  · exact (c7_amended_lrange_python_slice 0 "k" "0" "-1"
      ⟨[("k", Value.list ["a", "b", "c"])], []⟩ ["a", "b", "c"] 0 (-1)
      (by decide) (by decide) (by decide) (by decide)).1 (by decide)
  · exact (c7_amended_lrange_python_slice 0 "k" "0" "-4"
      ⟨[("k", Value.list ["a", "b", "c"])], []⟩ ["a", "b", "c"] 0 (-4)
      (by decide) (by decide) (by decide) (by decide)).2.1 ⟨rfl, by decide⟩

end PyRedis
